import Mathlib

/-!
Verification of the VUnit parsing core: the general regex-prioritized
tokenizer (`vunit/parsing/tokenizer.py`) and the Verilog preprocessor
(`vunit/parsing/verilog/preprocess.py`).

The Python code is shallowly embedded: pure functions become Lean
functions, the mutable `TokenStream` cursor becomes explicit state
passing, Python `None` becomes `Option`, and the one reachable
uncaught Python exception (an `UnboundLocalError` in `define`) becomes
an `Except` error value.  The compiled regex object produced by
`re.compile` is an external collaborator, so `Tokenizer.tokenize` is
parameterized over the `search` function of the compiled pattern; the
hypotheses of the theorems state the documented behaviour of
`re.Pattern.search` (leftmost match at or after the requested
position, matched text equal to the corresponding slice of the input).
-/

/- ## General tokenizer (`vunit/parsing/tokenizer.py`) -/

/-- A token of the general tokenizer: `Token = namedtuple("Token", ["kind",
"value", "location"])`.  Token kinds are the opaque objects created by
`new_token_kind`, represented by the registration index; a location is
`(file_name, (start, end))` as built by `Tokenizer.tokenize`. -/
structure GToken where
  kind : Nat
  value : List Char
  location : Option (Option String × (Nat × Nat))
  deriving DecidableEq, Repr

/-- The result of `self._regex.search(code, pos=start)`: the span
`(match.start(), match.end())` together with the index of the rule whose
group matched (`match.lastgroup` resolved through `self._assoc`). -/
abbrev SearchFun := Nat → Option (Nat × Nat × Nat)

/-- The per-rule data stored in `Tokenizer._assoc`: the token kind and the
optional post-processing function `func`. -/
abbrev AssocFun := Nat → Nat × Option (GToken → Option GToken)

/-- The body of the `while True` loop of `Tokenizer.tokenize`, with fuel for
termination.  Mirrors the source: search from `start`; stop on no match;
`lexpos = (start, match.end() - 1)`; the value is the matched slice of the
input; apply `func` when present and drop the token when it returns `None`;
continue from `match.end()`. -/
def tokenizeAux (search : SearchFun) (assoc : AssocFun) (code : List Char)
    (file_name : Option String) (create_locations : Bool) :
    Nat → Nat → List GToken
  | 0, _ => []
  | fuel + 1, start =>
    match search start with
    | none => []
    | some (s, e, key) =>
      let lexpos := (start, e - 1)
      let kf := assoc key
      let value := (code.drop s).take (e - s)
      let location := if create_locations then some (file_name, lexpos) else none
      let token : GToken := ⟨kf.1, value, location⟩
      match kf.2 with
      | none => token :: tokenizeAux search assoc code file_name create_locations fuel e
      | some f =>
        match f token with
        | none => tokenizeAux search assoc code file_name create_locations fuel e
        | some t => t :: tokenizeAux search assoc code file_name create_locations fuel e

/-- `Tokenizer.tokenize(code, file_name, create_locations)`.  A successful
search always advances the scan position past at least one character (the
well-formedness hypothesis of the theorems), so `code.length + 1` rounds of
the loop are always enough. -/
def tokenize (search : SearchFun) (assoc : AssocFun) (code : List Char)
    (file_name : Option String) (create_locations : Bool) : List GToken :=
  tokenizeAux search assoc code file_name create_locations (code.length + 1) 0

/-- `search` behaves like `re.Pattern.search` on `code` as far as spans go:
a match found from `pos` starts at or after `pos`, is non-empty, and ends
within the input. -/
def SearchWF (search : SearchFun) (code : List Char) : Prop :=
  ∀ pos s e k, search pos = some (s, e, k) → pos ≤ s ∧ s < e ∧ e ≤ code.length

/-- A concrete compiled pattern: an alternation of single-character literal
rules, searched on the suffix of `code` starting at the scan position.
`re.search` returns the leftmost match, and for same-start matches the
earliest alternative wins, which for single-character literals is the first
rule whose character equals the current one. -/
def charRuleSearchAux (rules : List Char) : List Char → Nat → Option (Nat × Nat × Nat)
  | [], _ => none
  | c :: cs, pos =>
    match rules.findIdx? (· = c) with
    | some k => some (pos, pos + 1, k)
    | none => charRuleSearchAux rules cs (pos + 1)

/-- Search of the single-character alternation pattern from position `pos`. -/
def charRuleSearch (rules code : List Char) (pos : Nat) : Option (Nat × Nat × Nat) :=
  charRuleSearchAux rules (code.drop pos) pos

theorem charRuleSearchAux_wf (rules : List Char) :
    ∀ (tail : List Char) (pos s e k : Nat),
      charRuleSearchAux rules tail pos = some (s, e, k) →
      pos ≤ s ∧ s < e ∧ e ≤ pos + tail.length := by
  intro tail
  induction tail with
  | nil => intro pos s e k h; simp [charRuleSearchAux] at h
  | cons c cs ih =>
    intro pos s e k h
    simp only [charRuleSearchAux] at h
    cases hf : rules.findIdx? (· = c) with
    | some k' =>
      rw [hf] at h
      simp only [Option.some.injEq, Prod.mk.injEq] at h
      obtain ⟨hs, he, _⟩ := h
      subst hs; subst he
      simp only [List.length_cons]
      omega
    | none =>
      rw [hf] at h
      have := ih (pos + 1) s e k h
      simp only [List.length_cons]
      omega

theorem charRuleSearch_wf (rules code : List Char) :
    SearchWF (charRuleSearch rules code) code := by
  intro pos s e k h
  have := charRuleSearchAux_wf rules (code.drop pos) pos s e k h
  have hlen : (code.drop pos).length = code.length - pos := by
    simp [List.length_drop]
  omega

/- ## C1: location spans built by `tokenize` -/

/-- The emitted tokens' spans tile the input from position `a` on: each
token's span starts exactly where the previous token's span stopped plus
one (the previous `match.end()`, i.e. the scan position, not the position
where the token's own match begins), and the matched text sits at the end
of the span. -/
def ChainFrom (code : List Char) (fn : Option String) : Nat → List GToken → Prop
  | _, [] => True
  | a, t :: ts =>
    ∃ s b, t.location = some (fn, (a, b)) ∧ a ≤ s ∧
      s + t.value.length = b + 1 ∧
      t.value = (code.drop s).take t.value.length ∧
      ChainFrom code fn (b + 1) ts

theorem tokenizeAux_chain (search : SearchFun) (assoc : AssocFun)
    (code : List Char) (fn : Option String)
    (hwf : SearchWF search code) (hnf : ∀ k, (assoc k).2 = none) :
    ∀ fuel start, ChainFrom code fn start
      (tokenizeAux search assoc code fn true fuel start) := by
  intro fuel
  induction fuel with
  | zero => intro start; simp [tokenizeAux, ChainFrom]
  | succ fuel ih =>
    intro start
    cases hs : search start with
    | none => simp [tokenizeAux, hs, ChainFrom]
    | some res =>
      obtain ⟨s, e, k⟩ := res
      obtain ⟨h1, h2, h3⟩ := hwf start s e k hs
      simp only [tokenizeAux, hs, hnf k]
      simp only [ChainFrom, if_true]
      have hlen : ((code.drop s).take (e - s)).length = e - s := by
        simp only [List.length_take, List.length_drop]
        omega
      refine ⟨s, e - 1, rfl, h1, ?_, ?_, ?_⟩
      · rw [hlen]; omega
      · rw [hlen]
      · have he : e - 1 + 1 = e := by omega
        rw [he]
        exact ih e

/-- C1 is refuted by the code: `Tokenizer.tokenize` sets
`lexpos = (start, match.end() - 1)` where `start` is the scan position
(the previous match's end), not `match.start()`.  With a single rule
matching only `b` on input `ab`, the match begins at position 1 but the
emitted token's span is `(0, 1)`, absorbing the skipped character `a`;
the span `(1, 1)` demanded by the claim is not produced. -/
theorem C1_counterexample :
    charRuleSearch ['b'] ['a', 'b'] 0 = some (1, 2, 0) ∧
    tokenize (charRuleSearch ['b'] ['a', 'b']) (fun _ => (0, none))
        ['a', 'b'] none true
      = [⟨0, ['b'], some (none, (0, 1))⟩] ∧
    (⟨0, ['b'], some (none, (0, 1))⟩ : GToken).location ≠ some (none, (1, 1)) := by
  decide

/-- C1 (amended): with `create_locations` enabled and rules without
post-processors, each emitted token's span is `[scan_start, match_end - 1]`
where `scan_start` is the previous match's end (`0` for the first token),
so characters skipped between the previous match's end and this match's
start ARE part of the span; the matched text occupies the tail of the
span. -/
theorem C1_amended (search : SearchFun) (assoc : AssocFun) (code : List Char)
    (fn : Option String) (hwf : SearchWF search code)
    (hnf : ∀ k, (assoc k).2 = none) :
    ChainFrom code fn 0 (tokenize search assoc code fn true) :=
  tokenizeAux_chain search assoc code fn hwf hnf (code.length + 1) 0

theorem C1_witness :
    ChainFrom ['a', 'b'] none 0
      (tokenize (charRuleSearch ['b'] ['a', 'b']) (fun _ => (0, none))
        ['a', 'b'] none true) :=
  C1_amended _ _ _ _ (charRuleSearch_wf ['b'] ['a', 'b']) (fun _ => rfl)

/- ## C3: concatenation of token values -/

/-- A strictly ordered list of half-open, pairwise disjoint, in-bounds spans
starting at or after `lo`. -/
def SpanChain (len : Nat) : Nat → List (Nat × Nat) → Prop
  | _, [] => True
  | lo, q :: rest => lo ≤ q.1 ∧ q.1 < q.2 ∧ q.2 ≤ len ∧ SpanChain len q.2 rest

/-- Whether position `p` lies inside one of the spans. -/
def coveredBy (spans : List (Nat × Nat)) (p : Nat) : Bool :=
  spans.any fun q => decide (q.1 ≤ p) && decide (p < q.2)

/-- Some rule of the single-character alternation pattern matches starting
at position `p` of `code`. -/
def litMatchesAt (rules code : List Char) (p : Nat) : Bool :=
  match code.drop p with
  | [] => false
  | c :: _ => (rules.findIdx? (· = c)).isSome

theorem SpanChain_not_covered (len : Nat) :
    ∀ (spans : List (Nat × Nat)) (lo p : Nat),
      SpanChain len lo spans → p < lo → coveredBy spans p = false := by
  intro spans
  induction spans with
  | nil => intro lo p _ _; simp [coveredBy]
  | cons q rest ih =>
    intro lo p hch hp
    obtain ⟨h1, _, _, h4⟩ := hch
    have hrest : coveredBy rest p = false := ih q.2 p h4 (by omega)
    simp only [coveredBy, List.any_cons] at hrest ⊢
    have hq : ¬ (q.1 ≤ p) := by omega
    simp [hq, hrest]

theorem slice_eq_map_range' (code : List Char) :
    ∀ n s, s + n ≤ code.length →
      (code.drop s).take n = (List.range' s n).map (fun p => code.getD p ' ') := by
  intro n
  induction n with
  | zero => intro s _; simp
  | succ n ih =>
    intro s hs
    have hslt : s < code.length := by omega
    rw [List.drop_eq_getElem_cons hslt, List.take_succ_cons, List.range'_succ]
    simp only [List.map_cons]
    congr 1
    · exact (List.getD_eq_getElem code ' ' hslt).symm
    · exact ih (s + 1) (by omega)

theorem range'_split3 (a b c d : Nat) (hab : a ≤ b) (hbc : b ≤ c) (hcd : c ≤ d) :
    List.range' a (d - a)
      = List.range' a (b - a) ++ List.range' b (c - b) ++ List.range' c (d - c) := by
  have h1 := List.range'_append b (c - b) (d - c) 1
  have h2 := List.range'_append a (b - a) ((d - c) + (c - b)) 1
  rw [one_mul] at h1 h2
  have e1 : b + (c - b) = c := by omega
  have e2 : a + (b - a) = b := by omega
  rw [e1] at h1
  rw [e2] at h2
  rw [List.append_assoc, h1, h2]
  congr 1
  omega

theorem tokenizeAux_join (search : SearchFun) (assoc : AssocFun)
    (code : List Char) (fn : Option String) (cl : Bool) (matchesAt : Nat → Bool)
    (hwf : SearchWF search code)
    (hnf : ∀ k, (assoc k).2 = none)
    (hleft : ∀ pos s e k, search pos = some (s, e, k) →
      ∀ p, pos ≤ p → p < s → matchesAt p = false)
    (hnone : ∀ pos, search pos = none →
      ∀ p, pos ≤ p → p < code.length → matchesAt p = false) :
    ∀ fuel start, code.length < fuel + start →
      ∃ spans : List (Nat × Nat),
        SpanChain code.length start spans ∧
        (tokenizeAux search assoc code fn cl fuel start).map GToken.value
          = spans.map (fun q => (code.drop q.1).take (q.2 - q.1)) ∧
        ((tokenizeAux search assoc code fn cl fuel start).map GToken.value).flatten
          = ((List.range' start (code.length - start)).filter
              (fun p => coveredBy spans p)).map (fun p => code.getD p ' ') ∧
        ∀ p, start ≤ p → p < code.length → coveredBy spans p = false →
          matchesAt p = false := by
  intro fuel
  induction fuel with
  | zero =>
    intro start hlt
    have hz : code.length - start = 0 := by omega
    refine ⟨[], trivial, by simp [tokenizeAux], by simp [tokenizeAux, hz], ?_⟩
    intro p hp1 hp2 _
    omega
  | succ fuel ih =>
    intro start hlt
    cases hs : search start with
    | none =>
      refine ⟨[], trivial, by simp [tokenizeAux, hs], ?_, ?_⟩
      · simp [tokenizeAux, hs, coveredBy]
      · intro p hp1 hp2 _
        exact hnone start hs p hp1 hp2
    | some res =>
      obtain ⟨s, e, k⟩ := res
      obtain ⟨h1, h2, h3⟩ := hwf start s e k hs
      obtain ⟨spans', hch', hmap', hjoin', hunm'⟩ := ih e (by omega)
      refine ⟨(s, e) :: spans', ⟨h1, h2, h3, hch'⟩, ?_, ?_, ?_⟩
      · simp only [tokenizeAux, hs, hnf k, List.map_cons]
        rw [hmap']
      · simp only [tokenizeAux, hs, hnf k, List.map_cons, List.flatten_cons]
        rw [range'_split3 start s e code.length h1 (Nat.le_of_lt h2) h3]
        rw [List.filter_append, List.filter_append, List.map_append, List.map_append]
        have hpart1 : (List.range' start (s - start)).filter
            (fun p => coveredBy ((s, e) :: spans') p) = [] := by
          rw [List.filter_eq_nil_iff]
          intro p hp
          rw [List.mem_range'_1] at hp
          have hcov' : coveredBy spans' p = false :=
            SpanChain_not_covered code.length spans' e p hch' (by omega)
          simp only [coveredBy, List.any_cons] at hcov' ⊢
          have hq : ¬ (s ≤ p) := by omega
          simp [hq, hcov']
        have hpart2 : ((List.range' s (e - s)).filter
            (fun p => coveredBy ((s, e) :: spans') p)).map (fun p => code.getD p ' ')
              = (code.drop s).take (e - s) := by
          have hall : (List.range' s (e - s)).filter
              (fun p => coveredBy ((s, e) :: spans') p) = List.range' s (e - s) := by
            rw [List.filter_eq_self]
            intro p hp
            rw [List.mem_range'_1] at hp
            simp only [coveredBy, List.any_cons]
            have hq1 : s ≤ p := hp.1
            have hq2 : p < e := by omega
            simp [hq1, hq2]
          rw [hall, ← slice_eq_map_range' code (e - s) s (by omega)]
        have hpart3 : (List.range' e (code.length - e)).filter
            (fun p => coveredBy ((s, e) :: spans') p)
              = (List.range' e (code.length - e)).filter (fun p => coveredBy spans' p) := by
          apply List.filter_congr
          intro p hp
          rw [List.mem_range'_1] at hp
          simp only [coveredBy, List.any_cons]
          have hq : ¬ (p < e) := by omega
          simp [hq]
        rw [hpart1, hpart2, hpart3, ← hjoin']
        simp
      · intro p hp1 hp2 hcov
        simp only [coveredBy, List.any_cons, Bool.or_eq_false_iff,
          Bool.and_eq_false_iff] at hcov
        obtain ⟨hhead, htail⟩ := hcov
        by_cases hps : p < s
        · exact hleft start s e k hs p hp1 hps
        · by_cases hpe : p < e
          · exfalso
            rcases hhead with h | h
            · simp at h; omega
            · simp at h; omega
          · refine hunm' p (by omega) hp2 ?_
            simp only [coveredBy]
            exact htail

theorem charRuleSearchAux_leftmost (rules code : List Char) :
    ∀ (tail : List Char) (pos : Nat), code.drop pos = tail →
      ∀ s e k, charRuleSearchAux rules tail pos = some (s, e, k) →
        ∀ p, pos ≤ p → p < s → litMatchesAt rules code p = false := by
  intro tail
  induction tail with
  | nil => intro pos _ s e k h; simp [charRuleSearchAux] at h
  | cons c cs ih =>
    intro pos htail s e k h p hp1 hp2
    cases hf : rules.findIdx? (· = c) with
    | some k' =>
      simp only [charRuleSearchAux, hf, Option.some.injEq, Prod.mk.injEq] at h
      omega
    | none =>
      simp only [charRuleSearchAux, hf] at h
      have hdrop : code.drop (pos + 1) = cs := by
        rw [← List.drop_drop 1 pos code, htail]
        rfl
      rcases Nat.eq_or_lt_of_le hp1 with heq | hlt
      · subst heq
        simp only [litMatchesAt, htail, hf]
        rfl
      · exact ih (pos + 1) hdrop s e k h p hlt hp2

theorem charRuleSearch_leftmost (rules code : List Char) :
    ∀ pos s e k, charRuleSearch rules code pos = some (s, e, k) →
      ∀ p, pos ≤ p → p < s → litMatchesAt rules code p = false := by
  intro pos s e k h
  exact charRuleSearchAux_leftmost rules code (code.drop pos) pos rfl s e k h

theorem charRuleSearchAux_none (rules code : List Char) :
    ∀ (tail : List Char) (pos : Nat), code.drop pos = tail →
      charRuleSearchAux rules tail pos = none →
      ∀ p, pos ≤ p → p < code.length → litMatchesAt rules code p = false := by
  intro tail
  induction tail with
  | nil =>
    intro pos htail _ p hp1 hp2
    have := congrArg List.length htail
    simp only [List.length_drop, List.length_nil] at this
    omega
  | cons c cs ih =>
    intro pos htail h p hp1 hp2
    cases hf : rules.findIdx? (· = c) with
    | some k' =>
      simp only [charRuleSearchAux, hf] at h
      exact Option.noConfusion h
    | none =>
      simp only [charRuleSearchAux, hf] at h
      have hdrop : code.drop (pos + 1) = cs := by
        rw [← List.drop_drop 1 pos code, htail]
        rfl
      rcases Nat.eq_or_lt_of_le hp1 with heq | hlt
      · subst heq
        simp only [litMatchesAt, htail, hf]
        rfl
      · exact ih (pos + 1) hdrop h p hlt hp2

theorem charRuleSearch_none (rules code : List Char) :
    ∀ pos, charRuleSearch rules code pos = none →
      ∀ p, pos ≤ p → p < code.length → litMatchesAt rules code p = false := by
  intro pos h
  exact charRuleSearchAux_none rules code (code.drop pos) pos rfl h

/-- C3 (confirmed): for rules without post-processors and a `search`
behaving like `re.Pattern.search` (leftmost non-empty in-bounds match,
`matchesAt` telling whether some rule matches at a given position), the
values of the emitted tokens are the slices of the input at an ordered
disjoint list of spans, their concatenation is the input text restricted,
in order, to the positions covered by those spans, and every removed
(uncovered) position is one where no rule matches. -/
theorem C3_theorem (search : SearchFun) (assoc : AssocFun) (code : List Char)
    (fn : Option String) (cl : Bool) (matchesAt : Nat → Bool)
    (hwf : SearchWF search code)
    (hnf : ∀ k, (assoc k).2 = none)
    (hleft : ∀ pos s e k, search pos = some (s, e, k) →
      ∀ p, pos ≤ p → p < s → matchesAt p = false)
    (hnone : ∀ pos, search pos = none →
      ∀ p, pos ≤ p → p < code.length → matchesAt p = false) :
    ∃ spans : List (Nat × Nat),
      SpanChain code.length 0 spans ∧
      (tokenize search assoc code fn cl).map GToken.value
        = spans.map (fun q => (code.drop q.1).take (q.2 - q.1)) ∧
      ((tokenize search assoc code fn cl).map GToken.value).flatten
        = ((List.range code.length).filter
            (fun p => coveredBy spans p)).map (fun p => code.getD p ' ') ∧
      ∀ p, p < code.length → coveredBy spans p = false → matchesAt p = false := by
  obtain ⟨spans, hch, hmap, hjoin, hunm⟩ :=
    tokenizeAux_join search assoc code fn cl matchesAt hwf hnf hleft hnone
      (code.length + 1) 0 (by omega)
  refine ⟨spans, hch, hmap, ?_, ?_⟩
  · rw [List.range_eq_range']
    simpa using hjoin
  · intro p hp
    exact hunm p (Nat.zero_le p) hp

theorem C3_witness :
    ∃ spans : List (Nat × Nat),
      SpanChain (['a', 'b'] : List Char).length 0 spans ∧
      (tokenize (charRuleSearch ['b'] ['a', 'b']) (fun _ => (0, none))
        ['a', 'b'] none false).map GToken.value
        = spans.map (fun q => ((['a', 'b'] : List Char).drop q.1).take (q.2 - q.1)) ∧
      ((tokenize (charRuleSearch ['b'] ['a', 'b']) (fun _ => (0, none))
        ['a', 'b'] none false).map GToken.value).flatten
        = ((List.range (['a', 'b'] : List Char).length).filter
            (fun p => coveredBy spans p)).map
              (fun p => (['a', 'b'] : List Char).getD p ' ') ∧
      ∀ p, p < (['a', 'b'] : List Char).length → coveredBy spans p = false →
        litMatchesAt ['b'] ['a', 'b'] p = false :=
  C3_theorem (charRuleSearch ['b'] ['a', 'b']) (fun _ => (0, none))
    ['a', 'b'] none false (litMatchesAt ['b'] ['a', 'b'])
    (charRuleSearch_wf ['b'] ['a', 'b']) (fun _ => rfl)
    (charRuleSearch_leftmost ['b'] ['a', 'b'])
    (charRuleSearch_none ['b'] ['a', 'b'])

/- ## Verilog preprocessor (`vunit/parsing/verilog/preprocess.py`) -/

/-- Modelled from the spec: the token-kind identities of
`vunit.parsing.verilog.tokenizer` (a module of this repository that is not
under `src/`), i.e. the kinds `preprocess.py` refers to, each "a stable
identity assigned at rule-registration time".  `OTHER` stands for any of
the remaining registered kinds, none of which `preprocess.py` inspects. -/
inductive Kind where
  | PREPROCESSOR
  | STRING
  | IDENTIFIER
  | NEWLINE
  | WHITESPACE
  | LPAR
  | RPAR
  | COMMA
  | EQUAL
  | OTHER
  deriving DecidableEq, Repr

/-- A token of the Verilog token stream (same shape as the general
tokenizer's tokens). -/
structure Token where
  kind : Kind
  value : String
  location : Option (Option String × (Nat × Nat))
  deriving DecidableEq, Repr

/-- `TokenStream`: a fixed token sequence plus a mutable cursor,
embedded as a value and threaded explicitly. -/
structure TokenStream where
  tokens : List Token
  idx : Nat
  deriving DecidableEq, Repr

/-- `TokenStream.eof`: `not self._idx < len(self._tokens)`. -/
def TokenStream.eof (s : TokenStream) : Bool :=
  decide (¬ s.idx < s.tokens.length)

/-- Python list indexing: a negative index counts from the end of the
list; an index out of `[-len, len)` raises `IndexError` (here `none`). -/
def pyGetItem {α : Type} (l : List α) (i : Int) : Option α :=
  if i < 0 then
    if 0 ≤ (l.length : Int) + i then l.get? ((l.length : Int) + i).toNat else none
  else l.get? i.toNat

/-- `TokenStream.peek(offset)`: `self._tokens[self._idx + offset]` with
Python list-indexing semantics. -/
def TokenStream.peek (s : TokenStream) (offset : Int) : Option Token :=
  pyGetItem s.tokens ((s.idx : Int) + offset)

/-- `TokenStream.current`: `self._tokens[self._idx]`. -/
def TokenStream.current (s : TokenStream) : Option Token :=
  pyGetItem s.tokens (s.idx : Int)

/-- The loop of `TokenStream.skip_while`: advance the cursor while the
current token's kind is among `kinds`.  The fuel `tokens.length - idx`
supplied by the wrapper is exactly the largest possible number of
iterations, so the fuel-0 fallback is never the deciding case. -/
def skipWhileAux (tokens : List Token) (kinds : List Kind) : Nat → Nat → Nat
  | 0, idx => idx
  | fuel + 1, idx =>
    if h : idx < tokens.length then
      if (tokens.get ⟨idx, h⟩).kind ∈ kinds then skipWhileAux tokens kinds fuel (idx + 1)
      else idx
    else idx

/-- `TokenStream.skip_while(*kinds)`. -/
def TokenStream.skip_while (s : TokenStream) (kinds : List Kind) : TokenStream :=
  ⟨s.tokens, skipWhileAux s.tokens kinds (s.tokens.length - s.idx) s.idx⟩

/-- The loop of `TokenStream.skip_until`: advance the cursor until the
current token's kind is among `kinds`. -/
def skipUntilAux (tokens : List Token) (kinds : List Kind) : Nat → Nat → Nat
  | 0, idx => idx
  | fuel + 1, idx =>
    if h : idx < tokens.length then
      if (tokens.get ⟨idx, h⟩).kind ∈ kinds then idx
      else skipUntilAux tokens kinds fuel (idx + 1)
    else idx

/-- `TokenStream.skip_until(*kinds)`. -/
def TokenStream.skip_until (s : TokenStream) (kinds : List Kind) : TokenStream :=
  ⟨s.tokens, skipUntilAux s.tokens kinds (s.tokens.length - s.idx) s.idx⟩

/-- `TokenStream.pop`: `None` at eof, else the current token, advancing
the cursor. -/
def TokenStream.pop (s : TokenStream) : Option Token × TokenStream :=
  if h : s.idx < s.tokens.length then
    (some (s.tokens.get ⟨s.idx, h⟩), ⟨s.tokens, s.idx + 1⟩)
  else (none, s)

/-- `TokenStream.slice(start, end)`: `self._tokens[start:end]`. -/
def TokenStream.slice (s : TokenStream) (start stop : Nat) : List Token :=
  (s.tokens.drop start).take (stop - start)

/-- `Macro`: a \x60define macro with zero or more arguments. -/
structure Macro where
  name : String
  tokens : List Token
  args : List String
  defaults : List (String × List Token)
  deriving DecidableEq, Repr

/-- `Macro.num_args`. -/
def Macro.num_args (m : Macro) : Nat := m.args.length

/-- Python `dict` lookup (`key in d` / `d[key]`) for a string-keyed dict
embedded as an association list with unique keys. -/
def lookupTD {α : Type} (d : List (String × α)) (k : String) : Option α :=
  (d.find? (fun q => q.1 == k)).map (fun q => q.2)

/-- Python `dict` assignment `d[key] = v`: replace the existing entry or
append a new one. -/
def insertTD {α : Type} (d : List (String × α)) (k : String) (v : α) :
    List (String × α) :=
  match d with
  | [] => [(k, v)]
  | q :: rest => if q.1 == k then (k, v) :: rest else q :: insertTD rest k v

/-- The loop of `Macro.expand`: walk the body; substitute identifier
tokens naming a parameter by the actual at the parameter's position, or
by the declared default when the actuals do not cover the position;
`none` models the early `return []` when neither exists ("broken verilog
\x60define ... no default"). -/
def Macro.expandAux (m : Macro) (values : List (List Token)) :
    List Token → Option (List Token)
  | [] => some []
  | t :: rest =>
    if t.kind = Kind.IDENTIFIER ∧ t.value ∈ m.args then
      if values.length ≤ m.args.indexOf t.value then
        match lookupTD m.defaults t.value with
        | none => none
        | some v => (Macro.expandAux m values rest).map (fun ts => v ++ ts)
      else
        (Macro.expandAux m values rest).map
          (fun ts => values.getD (m.args.indexOf t.value) [] ++ ts)
    else (Macro.expandAux m values rest).map (fun ts => t :: ts)

/-- `Macro.expand(values)`. -/
def Macro.expand (m : Macro) (values : List (List Token)) : List Token :=
  (Macro.expandAux m values m.tokens).getD []

/-- The `while token.kind != RPAR` loop of `Macro._parse_macro_actuals`:
a comma finalizes the current argument (not nesting-aware), any other
token is accumulated; stream exhaustion before the closing parenthesis
yields `None`. -/
def parseActualsLoop : Nat → TokenStream → Token → List Token →
    List (List Token) → Option (List (List Token)) × TokenStream
  | 0, s, _, _, _ => (none, s)
  | fuel + 1, s, token, value, values =>
    if token.kind = Kind.RPAR then (some (values ++ [value]), s)
    else
      let value' := if token.kind = Kind.COMMA then [] else value ++ [token]
      let values' := if token.kind = Kind.COMMA then values ++ [value] else values
      match s.pop with
      | (none, s') => (none, s')
      | (some t', s') => parseActualsLoop fuel s' t' value' values'

/-- `Macro._parse_macro_actuals(stream)`: require `(`, then run the
accumulation loop.  The loop pops a token per round, so
`tokens.length + 1` rounds always suffice. -/
def Macro.parse_macro_actuals (s : TokenStream) :
    Option (List (List Token)) × TokenStream :=
  match s.pop with
  | (none, s') => (none, s')
  | (some t, s') =>
    if t.kind ≠ Kind.LPAR then (none, s')
    else
      match s'.pop with
      | (none, s2) => (none, s2)
      | (some t2, s2) => parseActualsLoop (s2.tokens.length + 1) s2 t2 [] []

/-- `Macro.expand_from_stream(stream)`. -/
def Macro.expand_from_stream (m : Macro) (s : TokenStream) :
    List Token × TokenStream :=
  if m.num_args = 0 then (m.expand [], s)
  else
    match Macro.parse_macro_actuals s with
    | (none, s') => ([], s')
    | (some values, s') => (m.expand values, s')

/-- The only uncaught Python exception reachable in this code:
`UnboundLocalError`, raised by `define` when the token after the macro
name is neither whitespace, newline nor `(` (the locals `args` and
`defaults` are then never assigned, and the final `Macro(...)` call
reads them). -/
inductive PyErr where
  | unboundLocal
  deriving DecidableEq, Repr

/-- The `while token.kind != RPAR` parameter-list loop of `define`
(lines 125-142): identifiers become parameters, `= tok` attaches a
one-token default, other tokens are skipped, `None` from the stream
aborts with no macro.  When the pop directly after `=` returns `None`,
Python stores `[None]` as the default, but the very next pop then also
returns `None`, so the loop aborts and the partial macro (with its
`[None]` default) is discarded; the abort is modelled directly. -/
def parseParamsLoop : Nat → TokenStream → Token → List String →
    List (String × List Token) →
    Option (List String × List (String × List Token)) × TokenStream
  | 0, s, _, _, _ => (none, s)
  | fuel + 1, s, token, args, defaults =>
    if token.kind = Kind.RPAR then (some (args, defaults), s)
    else if token.kind = Kind.IDENTIFIER then
      match s.pop with
      | (none, s1) => (none, s1)
      | (some t1, s1) =>
        if t1.kind = Kind.EQUAL then
          match s1.pop with
          | (none, s2) => (none, s2)
          | (some t2, s2) =>
            match s2.pop with
            | (none, s3) => (none, s3)
            | (some t3, s3) =>
              parseParamsLoop fuel s3 t3 (args ++ [token.value])
                (insertTD defaults token.value [t2])
        else parseParamsLoop fuel s1 t1 (args ++ [token.value]) defaults
    else
      match s.pop with
      | (none, s1) => (none, s1)
      | (some t1, s1) => parseParamsLoop fuel s1 t1 args defaults

/-- Lines 144-152 of `define`: skip whitespace, take every token up to
(but excluding) the next newline as the body, consume the newline if
present, and build the macro. -/
def defineBody (name : String) (args : List String)
    (defaults : List (String × List Token)) (s : TokenStream) :
    Except PyErr (Option Macro × TokenStream) :=
  let s1 := s.skip_while [Kind.WHITESPACE]
  let start := s1.idx
  let s2 := s1.skip_until [Kind.NEWLINE]
  let stop := s2.idx
  let s3 := if s2.eof then s2 else (s2.pop).2
  .ok (some ⟨name, s2.slice start stop, args, defaults⟩, s3)

/-- `define(define_token, stream)`: handle a \x60define directive.
`.ok none` is Python's `return None` (malformed directive, logged and
skipped); `.error .unboundLocal` is the uncaught `UnboundLocalError`
raised when the token following the macro name is neither whitespace,
newline nor `(` — Python still runs lines 144-148 in that case, but the
`Macro(...)` call then reads the never-assigned locals `args` and
`defaults` and the exception propagates out of `preprocess`, so no
intermediate state is observable. -/
def define (define_token : Token) (s : TokenStream) :
    Except PyErr (Option Macro × TokenStream) :=
  let s0 := s.skip_while [Kind.WHITESPACE]
  match s0.pop with
  | (none, s1) => .ok (none, s1)
  | (some name_token, s1) =>
    if name_token.kind = Kind.NEWLINE then .ok (none, s1)
    else if name_token.kind ≠ Kind.IDENTIFIER then .ok (none, s1)
    else
      match s1.pop with
      | (none, s2) => .ok (some ⟨name_token.value, [], [], []⟩, s2)
      | (some token, s2) =>
        if token.kind = Kind.WHITESPACE ∨ token.kind = Kind.NEWLINE then
          defineBody name_token.value [] [] s2
        else if token.kind = Kind.LPAR then
          match parseParamsLoop (s2.tokens.length + 1) s2 token [] [] with
          | (none, s3) => .ok (none, s3)
          | (some (args, defaults), s3) => defineBody name_token.value args defaults s3
        else .error .unboundLocal

/-- The injected capabilities used by `preprocess`: `os.path.exists`,
`open(...).read()`, `os.path.join`, and the tokenizer
`vunit.parsing.verilog.tokenizer.tokenize` of the included file's text
(an external module from `preprocess.py`'s point of view, abstracted as
a token-list-valued function). -/
structure Env where
  path_exists : String → Bool
  read_file : String → String
  join : String → String → String
  vtokenize : String → List Token

/-- Lines 43-71 of `preprocess`: determine the file name of an \x60include
directive from the next token (after whitespace skipping, done by the
caller): a macro invocation whose expansion must begin with a string
token, or a string token directly; anything else yields `none`
("Broken \x60include has bad argument"). -/
def includeFileName (defines : List (String × Macro)) (s : TokenStream) :
    Option String × TokenStream :=
  match s.pop with
  | (none, s1) => (none, s1)
  | (some tok, s1) =>
    if tok.kind = Kind.PREPROCESSOR then
      match lookupTD defines tok.value with
      | none => (none, s1)
      | some m =>
        match m.expand_from_stream s1 with
        | (expanded_tokens, s2) =>
          match expanded_tokens with
          | [] => (none, s2)
          | t0 :: _ => if t0.kind ≠ Kind.STRING then (none, s2) else (some t0.value, s2)
    else if tok.kind = Kind.STRING then (some tok.value, s1)
    else (none, s1)

/-- Lines 73-81 of `preprocess`: resolve the file name against the
include paths in order, taking the first directory whose joined path
exists (`for ... else: continue`). -/
def resolveInclude (env : Env) (include_paths : List String) (file_name : String) :
    Option String :=
  (include_paths.find? (fun p => env.path_exists (env.join p file_name))).map
    (fun p => env.join p file_name)

/-- `preprocess(tokens, defines, include_paths, included_files)`: the
main loop, with fuel bounding the number of loop iterations and the
depth of \x60include recursion (the Python recursion is unbounded for
cyclic includes, so no input-derived bound exists).  Returns the output
token list together with the final states of the shared `defines` table
and `included_files` log; `.error` propagates the `UnboundLocalError`
of `define`. -/
def preprocess (env : Env) : Nat → TokenStream → List (String × Macro) →
    List String → List String →
    Except PyErr (List Token × List (String × Macro) × List String)
  | 0, _, defines, _, included_files => .ok ([], defines, included_files)
  | fuel + 1, stream, defines, include_paths, included_files =>
    match stream.pop with
    | (none, _) => .ok ([], defines, included_files)
    | (some token, s1) =>
      if token.kind ≠ Kind.PREPROCESSOR then
        match preprocess env fuel s1 defines include_paths included_files with
        | .error err => .error err
        | .ok (r, d, i) => .ok (token :: r, d, i)
      else
        match (if token.value = "define" then define token s1 else .ok (none, s1)) with
        | .error err => .error err
        | .ok (mOpt, s2) =>
          let defines1 := match mOpt with
            | some m => insertTD defines m.name m
            | none => defines
          if token.value = "include" then
            match includeFileName defines1 (s2.skip_while [Kind.WHITESPACE]) with
            | (none, s6) => preprocess env fuel s6 defines1 include_paths included_files
            | (some file_name, s6) =>
              match resolveInclude env include_paths file_name with
              | none => preprocess env fuel s6 defines1 include_paths included_files
              | some full_name =>
                match preprocess env fuel ⟨env.vtokenize (env.read_file full_name), 0⟩
                    defines1 include_paths (included_files ++ [full_name]) with
                | .error err => .error err
                | .ok (inc, d2, i2) =>
                  match preprocess env fuel s6 d2 include_paths i2 with
                  | .error err => .error err
                  | .ok (r, d3, i3) => .ok (inc ++ r, d3, i3)
          else
            match lookupTD defines1 token.value with
            | some m =>
              match m.expand_from_stream s2 with
              | (expanded, s3) =>
                match preprocess env fuel s3 defines1 include_paths included_files with
                | .error err => .error err
                | .ok (r, d, i) => .ok (expanded ++ r, d, i)
            | none => preprocess env fuel s2 defines1 include_paths included_files

/- ## C5, C6, C7: macro expansion -/

theorem expandAux_broken (m : Macro) (values : List (List Token)) :
    ∀ body : List Token,
      (∃ t ∈ body, t.kind = Kind.IDENTIFIER ∧ t.value ∈ m.args ∧
        values.length ≤ m.args.indexOf t.value ∧ lookupTD m.defaults t.value = none) →
      Macro.expandAux m values body = none := by
  intro body
  induction body with
  | nil => intro h; obtain ⟨t, ht, _⟩ := h; simp at ht
  | cons t0 rest ih =>
    intro h
    obtain ⟨t, ht, h1, h2, h3, h4⟩ := h
    rcases List.mem_cons.mp ht with heq | hmem
    · subst heq
      simp only [Macro.expandAux]
      rw [if_pos ⟨h1, h2⟩, if_pos h3, h4]
    · have hrest := ih ⟨t, hmem, h1, h2, h3, h4⟩
      simp only [Macro.expandAux]
      by_cases hc : t0.kind = Kind.IDENTIFIER ∧ t0.value ∈ m.args
      · rw [if_pos hc]
        by_cases hlen : values.length ≤ m.args.indexOf t0.value
        · rw [if_pos hlen]
          cases hd : lookupTD m.defaults t0.value with
          | none => rfl
          | some v => rw [hrest]; rfl
        · rw [if_neg hlen, hrest]; rfl
      · rw [if_neg hc, hrest]; rfl

/-- C5 (confirmed): whenever some body token is an identifier naming a
declared parameter whose position is not covered by the actuals list and
which has no declared default, `Macro.expand` aborts and returns the
empty token sequence. -/
theorem C5_theorem (m : Macro) (values : List (List Token))
    (h : ∃ t ∈ m.tokens, t.kind = Kind.IDENTIFIER ∧ t.value ∈ m.args ∧
      values.length ≤ m.args.indexOf t.value ∧ lookupTD m.defaults t.value = none) :
    m.expand values = [] := by
  unfold Macro.expand
  rw [expandAux_broken m values m.tokens h]
  rfl

/-- The claim's example: `define foo(arg1, arg2) arg1 arg2` invoked as
`foo(1)` (actuals `[["1"]]`) yields no tokens. -/
theorem C5_witness :
    Macro.expand
      ⟨"foo",
        [⟨Kind.IDENTIFIER, "arg1", none⟩, ⟨Kind.WHITESPACE, " ", none⟩,
          ⟨Kind.IDENTIFIER, "arg2", none⟩],
        ["arg1", "arg2"], []⟩
      [[⟨Kind.OTHER, "1", none⟩]] = [] :=
  C5_theorem _ _ ⟨⟨Kind.IDENTIFIER, "arg2", none⟩, by decide, by decide, by decide,
    by decide, by decide⟩

/-- C6 (confirmed): a macro with zero parameters expands from a stream to
exactly its body without consuming any token, and `Macro.expand` returns
the body whatever actuals are supplied. -/
theorem C6_theorem (m : Macro) (h : m.args = []) :
    (∀ s, m.expand_from_stream s = (m.tokens, s)) ∧
    (∀ values, m.expand values = m.tokens) := by
  have hexp : ∀ values, m.expand values = m.tokens := by
    intro values
    unfold Macro.expand
    have haux : ∀ body, Macro.expandAux m values body = some body := by
      intro body
      induction body with
      | nil => rfl
      | cons t rest ih =>
        simp only [Macro.expandAux]
        have hc : ¬ (t.kind = Kind.IDENTIFIER ∧ t.value ∈ m.args) := by
          rw [h]; simp
        rw [if_neg hc, ih]
        rfl
    rw [haux m.tokens]
    rfl
  refine ⟨?_, hexp⟩
  intro s
  unfold Macro.expand_from_stream
  rw [if_pos (by simp [Macro.num_args, h]), hexp []]

theorem C6_witness :
    Macro.expand_from_stream
        ⟨"foo", [⟨Kind.IDENTIFIER, "bar", none⟩, ⟨Kind.STRING, "abc", none⟩], [], []⟩
        ⟨[⟨Kind.LPAR, "(", none⟩, ⟨Kind.OTHER, "1", none⟩], 0⟩
      = ([⟨Kind.IDENTIFIER, "bar", none⟩, ⟨Kind.STRING, "abc", none⟩],
          ⟨[⟨Kind.LPAR, "(", none⟩, ⟨Kind.OTHER, "1", none⟩], 0⟩) ∧
    Macro.expand
        ⟨"foo", [⟨Kind.IDENTIFIER, "bar", none⟩, ⟨Kind.STRING, "abc", none⟩], [], []⟩
        [[⟨Kind.OTHER, "1", none⟩]]
      = [⟨Kind.IDENTIFIER, "bar", none⟩, ⟨Kind.STRING, "abc", none⟩] :=
  ⟨(C6_theorem _ rfl).1 _, (C6_theorem _ rfl).2 _⟩

/-- Modelled from the spec: per-body-token positional substitution —
"substitute the actual at that parameter's position if the actuals list
covers it, else substitute the declared default if one exists"; all other
body tokens pass through unchanged. -/
def substSpec (m : Macro) (values : List (List Token)) (t : Token) : List Token :=
  if t.kind = Kind.IDENTIFIER ∧ t.value ∈ m.args then
    if m.args.indexOf t.value < values.length then values.getD (m.args.indexOf t.value) []
    else (lookupTD m.defaults t.value).getD []
  else [t]

theorem expandAux_subst (m : Macro) (values : List (List Token)) :
    ∀ body : List Token,
      (∀ t ∈ body, t.kind = Kind.IDENTIFIER → t.value ∈ m.args →
        values.length ≤ m.args.indexOf t.value → (lookupTD m.defaults t.value).isSome) →
      Macro.expandAux m values body = some ((body.map (substSpec m values)).flatten) := by
  intro body
  induction body with
  | nil => intro _; rfl
  | cons t rest ih =>
    intro hb
    have hrest := ih (fun t' ht' => hb t' (List.mem_cons_of_mem _ ht'))
    simp only [Macro.expandAux, List.map_cons, List.flatten_cons]
    by_cases hc : t.kind = Kind.IDENTIFIER ∧ t.value ∈ m.args
    · rw [if_pos hc]
      by_cases hlen : values.length ≤ m.args.indexOf t.value
      · rw [if_pos hlen]
        have hsome := hb t (List.mem_cons_self t rest) hc.1 hc.2 hlen
        cases hd : lookupTD m.defaults t.value with
        | none => rw [hd] at hsome; simp at hsome
        | some v =>
          rw [hrest]
          have hns : ¬ m.args.indexOf t.value < values.length := by omega
          simp [substSpec, hc, hns, hd]
      · rw [if_neg hlen, hrest]
        have hlt : m.args.indexOf t.value < values.length := by omega
        simp [substSpec, hc, hlt]
    · rw [if_neg hc, hrest]
      simp [substSpec, hc]

/-- C7 (confirmed): when every body occurrence of a parameter not covered
by the actuals has a declared default, expansion performs positional
substitution in which each such uncovered parameter is replaced by its
declared default token sequence (and covered parameters by the actual at
their position). -/
theorem C7_theorem (m : Macro) (values : List (List Token))
    (h : ∀ t ∈ m.tokens, t.kind = Kind.IDENTIFIER → t.value ∈ m.args →
      values.length ≤ m.args.indexOf t.value → (lookupTD m.defaults t.value).isSome) :
    m.expand values = (m.tokens.map (substSpec m values)).flatten := by
  unfold Macro.expand
  rw [expandAux_subst m values m.tokens h]
  rfl

/-- The claim's example, end to end at token level: parsing the directive
`define foo(arg1, arg2=default)arg1 arg2` yields the expected macro;
invoking it as `foo(1)` parses the actuals `[["1"]]` from the stream, and
expansion substitutes the actual for `arg1` and the declared default for
the omitted `arg2`, i.e. the token sequence of `1 default`. -/
theorem C7_witness :
    define ⟨Kind.PREPROCESSOR, "define", none⟩
      ⟨[⟨Kind.WHITESPACE, " ", none⟩, ⟨Kind.IDENTIFIER, "foo", none⟩,
        ⟨Kind.LPAR, "(", none⟩, ⟨Kind.IDENTIFIER, "arg1", none⟩,
        ⟨Kind.COMMA, ",", none⟩, ⟨Kind.WHITESPACE, " ", none⟩,
        ⟨Kind.IDENTIFIER, "arg2", none⟩, ⟨Kind.EQUAL, "=", none⟩,
        ⟨Kind.IDENTIFIER, "default", none⟩, ⟨Kind.RPAR, ")", none⟩,
        ⟨Kind.IDENTIFIER, "arg1", none⟩, ⟨Kind.WHITESPACE, " ", none⟩,
        ⟨Kind.IDENTIFIER, "arg2", none⟩], 0⟩
      = .ok (some ⟨"foo",
          [⟨Kind.IDENTIFIER, "arg1", none⟩, ⟨Kind.WHITESPACE, " ", none⟩,
            ⟨Kind.IDENTIFIER, "arg2", none⟩],
          ["arg1", "arg2"],
          [("arg2", [⟨Kind.IDENTIFIER, "default", none⟩])]⟩,
        ⟨[⟨Kind.WHITESPACE, " ", none⟩, ⟨Kind.IDENTIFIER, "foo", none⟩,
          ⟨Kind.LPAR, "(", none⟩, ⟨Kind.IDENTIFIER, "arg1", none⟩,
          ⟨Kind.COMMA, ",", none⟩, ⟨Kind.WHITESPACE, " ", none⟩,
          ⟨Kind.IDENTIFIER, "arg2", none⟩, ⟨Kind.EQUAL, "=", none⟩,
          ⟨Kind.IDENTIFIER, "default", none⟩, ⟨Kind.RPAR, ")", none⟩,
          ⟨Kind.IDENTIFIER, "arg1", none⟩, ⟨Kind.WHITESPACE, " ", none⟩,
          ⟨Kind.IDENTIFIER, "arg2", none⟩], 13⟩) ∧
    Macro.parse_macro_actuals ⟨[⟨Kind.LPAR, "(", none⟩, ⟨Kind.OTHER, "1", none⟩,
        ⟨Kind.RPAR, ")", none⟩], 0⟩
      = (some [[⟨Kind.OTHER, "1", none⟩]],
          ⟨[⟨Kind.LPAR, "(", none⟩, ⟨Kind.OTHER, "1", none⟩,
            ⟨Kind.RPAR, ")", none⟩], 3⟩) ∧
    Macro.expand
        ⟨"foo",
          [⟨Kind.IDENTIFIER, "arg1", none⟩, ⟨Kind.WHITESPACE, " ", none⟩,
            ⟨Kind.IDENTIFIER, "arg2", none⟩],
          ["arg1", "arg2"],
          [("arg2", [⟨Kind.IDENTIFIER, "default", none⟩])]⟩
        [[⟨Kind.OTHER, "1", none⟩]]
      = [⟨Kind.OTHER, "1", none⟩, ⟨Kind.WHITESPACE, " ", none⟩,
          ⟨Kind.IDENTIFIER, "default", none⟩] := by
  refine ⟨by rfl, by rfl, ?_⟩
  rw [C7_theorem _ _ ?_]
  · decide
  · intro t ht h1 h2 h3
    revert h1 h2 h3
    fin_cases ht <;> decide

/- ## C9: the malformed-define UnboundLocalError -/

/-- C9's claim ("a malformed \x60define never raises") is violated by the
code: on the token stream of `\x60define foo=bar` — macro name followed by
an `EQUAL` token, which is neither whitespace, newline nor `(` — `define`
reaches the final `Macro(...)` call with the locals `args`/`defaults`
never assigned and raises `UnboundLocalError`, which propagates out of
`preprocess`. -/
theorem C9_theorem :
    define ⟨Kind.PREPROCESSOR, "define", none⟩
      ⟨[⟨Kind.WHITESPACE, " ", none⟩, ⟨Kind.IDENTIFIER, "foo", none⟩,
        ⟨Kind.EQUAL, "=", none⟩, ⟨Kind.IDENTIFIER, "bar", none⟩], 0⟩
      = .error .unboundLocal ∧
    preprocess ⟨fun _ => false, fun _ => "", fun a b => a ++ "/" ++ b, fun _ => []⟩ 2
      ⟨[⟨Kind.PREPROCESSOR, "define", none⟩, ⟨Kind.WHITESPACE, " ", none⟩,
        ⟨Kind.IDENTIFIER, "foo", none⟩, ⟨Kind.EQUAL, "=", none⟩,
        ⟨Kind.IDENTIFIER, "bar", none⟩], 0⟩ [] [] []
      = .error .unboundLocal :=
  ⟨rfl, rfl⟩

/- ## C10: negative offsets in `TokenStream.peek` -/

/-- C10 (confirmed): for a non-empty stream and an offset making
`cursor + offset` negative but at least `-length`, `peek` neither fails
nor signals out-of-range: Python's negative indexing returns the token
at absolute position `length + cursor + offset`. -/
theorem C10_theorem (s : TokenStream) (offset : Int)
    (hne : s.tokens ≠ [])
    (hneg : (s.idx : Int) + offset < 0)
    (hge : -(s.tokens.length : Int) ≤ (s.idx : Int) + offset) :
    s.peek offset
      = s.tokens.get? ((s.tokens.length : Int) + ((s.idx : Int) + offset)).toNat ∧
    (s.peek offset).isSome := by
  have hpk : s.peek offset
      = s.tokens.get? ((s.tokens.length : Int) + ((s.idx : Int) + offset)).toNat := by
    unfold TokenStream.peek pyGetItem
    rw [if_pos hneg, if_pos (by omega)]
  refine ⟨hpk, ?_⟩
  rw [hpk]
  have hlt : ((s.tokens.length : Int) + ((s.idx : Int) + offset)).toNat
      < s.tokens.length := by omega
  rw [List.get?_eq_get hlt]
  rfl

theorem C10_witness :
    TokenStream.peek ⟨[⟨Kind.IDENTIFIER, "x", none⟩], 0⟩ (-1)
      = some ⟨Kind.IDENTIFIER, "x", none⟩ := by
  have h := C10_theorem ⟨[⟨Kind.IDENTIFIER, "x", none⟩], 0⟩ (-1)
    (by decide) (by decide) (by decide)
  exact h.1.trans (by rfl)

/- ## C2: directive tokens with unknown values -/

/-- Popping the token at the cursor of a stream shaped
`pre ++ t :: rest` with cursor `pre.length` yields `t` and advances. -/
theorem pop_at (pre : List Token) (t : Token) (rest : List Token) :
    TokenStream.pop ⟨pre ++ t :: rest, pre.length⟩
      = (some t, ⟨pre ++ t :: rest, pre.length + 1⟩) := by
  have h : pre.length < (pre ++ t :: rest).length := by
    simp
  unfold TokenStream.pop
  rw [dif_pos h]
  simp [List.getElem_append_right (Nat.le_refl pre.length)]

/-- C2 is refuted by the code: a `PREPROCESSOR` token whose value is not
`define`, not `include` and not a defined macro name matches no branch of
the dispatch and is appended to nothing — `preprocess` consumes it and
emits nothing, instead of passing it through.  With the single token
\x60ifdef and no definitions the output is empty, not `[ifdef-token]`. -/
theorem C2_counterexample :
    preprocess ⟨fun _ => false, fun _ => "", fun a b => a ++ "/" ++ b, fun _ => []⟩ 2
        ⟨[⟨Kind.PREPROCESSOR, "ifdef", none⟩], 0⟩ [] [] []
      = .ok ([], [], []) ∧
    ([] : List Token) ≠ [⟨Kind.PREPROCESSOR, "ifdef", none⟩] :=
  ⟨rfl, by decide⟩

/-- C2 (amended): a directive-kind token whose value is not `define`, not
`include` and not a key of the definitions table is consumed and silently
dropped: the step emits nothing for it, leaves the definitions table and
the included-files log untouched, and continues with the rest of the
stream. -/
theorem C2_amended (env : Env) (fuel : Nat) (t : Token) (rest : List Token)
    (defines : List (String × Macro)) (include_paths included_files : List String)
    (hk : t.kind = Kind.PREPROCESSOR)
    (hd : t.value ≠ "define") (hi : t.value ≠ "include")
    (hnd : lookupTD defines t.value = none) :
    preprocess env (fuel + 1) ⟨t :: rest, 0⟩ defines include_paths included_files
      = preprocess env fuel ⟨t :: rest, 1⟩ defines include_paths included_files := by
  have hpop := pop_at [] t rest
  simp only [List.nil_append, List.length_nil] at hpop
  simp only [preprocess, hpop, hk, hd, hi]
  simp
  rw [hnd]

theorem C2_witness :
    preprocess ⟨fun _ => false, fun _ => "", fun a b => a ++ "/" ++ b, fun _ => []⟩ 3
        ⟨[⟨Kind.PREPROCESSOR, "celldefine", none⟩, ⟨Kind.IDENTIFIER, "x", none⟩], 0⟩
        [] [] []
      = preprocess ⟨fun _ => false, fun _ => "", fun a b => a ++ "/" ++ b, fun _ => []⟩ 2
        ⟨[⟨Kind.PREPROCESSOR, "celldefine", none⟩, ⟨Kind.IDENTIFIER, "x", none⟩], 1⟩
        [] [] [] :=
  C2_amended _ 2 _ _ _ _ _ rfl (by decide) (by decide) rfl

/- ## C4: \x60include resolution and splicing -/

theorem skipWhileAux_block (kinds : List Kind) :
    ∀ (ws pre : List Token) (tok : Token) (rest : List Token) (fuel : Nat),
      (∀ t ∈ ws, t.kind ∈ kinds) → tok.kind ∉ kinds → ws.length < fuel →
      skipWhileAux (pre ++ ws ++ tok :: rest) kinds fuel pre.length
        = pre.length + ws.length := by
  intro ws
  induction ws with
  | nil =>
    intro pre tok rest fuel _ htok hfuel
    cases fuel with
    | zero => omega
    | succ f =>
      rw [List.append_nil]
      simp only [skipWhileAux]
      have h : pre.length < (pre ++ tok :: rest).length := by simp
      rw [dif_pos h]
      have hg : (pre ++ tok :: rest).get ⟨pre.length, h⟩ = tok := by
        simp [List.get_eq_getElem, List.getElem_append_right (Nat.le_refl pre.length)]
      rw [hg, if_neg htok]
      simp
  | cons w ws' ih =>
    intro pre tok rest fuel hws htok hfuel
    cases fuel with
    | zero => simp at hfuel
    | succ f =>
      simp only [skipWhileAux]
      have h : pre.length < (pre ++ (w :: ws') ++ tok :: rest).length := by simp
      rw [dif_pos h]
      have hg : (pre ++ (w :: ws') ++ tok :: rest).get ⟨pre.length, h⟩ = w := by
        simp only [List.append_assoc, List.cons_append, List.get_eq_getElem]
        rw [List.getElem_append_right (Nat.le_refl pre.length)]
        simp
      rw [hg, if_pos (hws w (List.mem_cons_self w ws'))]
      have hrec := ih (pre ++ [w]) tok rest f
        (fun t ht => hws t (List.mem_cons_of_mem _ ht)) htok
        (by simp only [List.length_cons] at hfuel; omega)
      simp only [List.append_assoc, List.cons_append, List.singleton_append,
        List.nil_append, List.length_append, List.length_cons, List.length_nil,
        List.length_singleton] at hrec ⊢
      rw [hrec]
      omega

theorem includeFileName_string (defines : List (String × Macro)) (pre : List Token)
    (fnameTok : Token) (rest : List Token) (hfk : fnameTok.kind = Kind.STRING) :
    includeFileName defines ⟨pre ++ fnameTok :: rest, pre.length⟩
      = (some fnameTok.value, ⟨pre ++ fnameTok :: rest, pre.length + 1⟩) := by
  unfold includeFileName
  rw [pop_at]
  simp [hfk]

theorem find?_getD {α : Type} (p : α → Bool) (dflt : α) :
    ∀ (l : List α) (k : Nat), k < l.length →
      (∀ j, j < k → p (l.getD j dflt) = false) → p (l.getD k dflt) = true →
      l.find? p = some (l.getD k dflt) := by
  intro l
  induction l with
  | nil => intro k hk; simp at hk
  | cons a l' ih =>
    intro k hk hbef hhit
    cases k with
    | zero =>
      rw [List.find?_cons]
      simp only [List.getD_cons_zero] at hhit ⊢
      rw [hhit]
    | succ k' =>
      rw [List.find?_cons]
      have ha : p a = false := by
        have := hbef 0 (Nat.succ_pos k')
        simpa using this
      rw [ha]
      simp only [List.getD_cons_succ] at hhit ⊢
      exact ih k' (by simp only [List.length_cons] at hk; omega)
        (fun j hj => by
          have := hbef (j + 1) (by omega)
          simpa using this) hhit

theorem resolveInclude_found (env : Env) (paths : List String) (fname : String)
    (k : Nat) (hk : k < paths.length)
    (hbef : ∀ j, j < k → env.path_exists (env.join (paths.getD j "") fname) = false)
    (hhit : env.path_exists (env.join (paths.getD k "") fname) = true) :
    resolveInclude env paths fname = some (env.join (paths.getD k "") fname) := by
  unfold resolveInclude
  rw [find?_getD (fun p => env.path_exists (env.join p fname)) "" paths k hk hbef hhit]
  rfl

theorem resolveInclude_none (env : Env) (paths : List String) (fname : String)
    (hall : ∀ p ∈ paths, env.path_exists (env.join p fname) = false) :
    resolveInclude env paths fname = none := by
  unfold resolveInclude
  rw [List.find?_eq_none.mpr (fun x hx => by simp [hall x hx])]
  rfl

/-- C4 (confirmed): an \x60include directive with a string-token filename.
If the filename resolves in the `k`-th search directory — the first whose
joined path exists — then exactly that joined path is appended once to
the included-files log before the recursive call, the file's text is read
and tokenized, and its fully preprocessed tokens are spliced into the
output at this point, followed by the processing of the remaining stream.
If no search directory resolves the filename, nothing is appended to the
log and nothing is emitted for the directive: processing just continues
with the remaining stream, log and table untouched. -/
theorem C4_theorem (env : Env) (fuel : Nat) (incTok fnameTok : Token)
    (ws rest : List Token) (defines : List (String × Macro))
    (include_paths included_files : List String)
    (hik : incTok.kind = Kind.PREPROCESSOR) (hiv : incTok.value = "include")
    (hws : ∀ t ∈ ws, t.kind = Kind.WHITESPACE)
    (hfk : fnameTok.kind = Kind.STRING) :
    (∀ k, k < include_paths.length →
      (∀ j, j < k →
        env.path_exists (env.join (include_paths.getD j "") fnameTok.value) = false) →
      env.path_exists (env.join (include_paths.getD k "") fnameTok.value) = true →
      ∀ inc d2 i2 r d3 i3,
        preprocess env fuel
          ⟨env.vtokenize (env.read_file
            (env.join (include_paths.getD k "") fnameTok.value)), 0⟩
          defines include_paths
          (included_files ++ [env.join (include_paths.getD k "") fnameTok.value])
          = .ok (inc, d2, i2) →
        preprocess env fuel ⟨incTok :: (ws ++ fnameTok :: rest), ws.length + 2⟩
          d2 include_paths i2 = .ok (r, d3, i3) →
        preprocess env (fuel + 1) ⟨incTok :: (ws ++ fnameTok :: rest), 0⟩
          defines include_paths included_files = .ok (inc ++ r, d3, i3)) ∧
    ((∀ p ∈ include_paths, env.path_exists (env.join p fnameTok.value) = false) →
      preprocess env (fuel + 1) ⟨incTok :: (ws ++ fnameTok :: rest), 0⟩
        defines include_paths included_files
        = preprocess env fuel ⟨incTok :: (ws ++ fnameTok :: rest), ws.length + 2⟩
            defines include_paths included_files) := by
  have hpop := pop_at [] incTok (ws ++ fnameTok :: rest)
  simp only [List.nil_append, List.length_nil] at hpop
  have hsw : TokenStream.skip_while ⟨incTok :: (ws ++ fnameTok :: rest), 1⟩
      [Kind.WHITESPACE] = ⟨incTok :: (ws ++ fnameTok :: rest), 1 + ws.length⟩ := by
    unfold TokenStream.skip_while
    have hb := skipWhileAux_block [Kind.WHITESPACE] ws [incTok] fnameTok rest
      ((ws ++ fnameTok :: rest).length)
      (fun t ht => by simp [hws t ht]) (by simp [hfk]) (by simp)
    simp only [List.singleton_append, List.cons_append, List.nil_append,
      List.length_cons, List.length_singleton, List.length_nil, Nat.zero_add] at hb
    simp only [List.length_cons, Nat.add_sub_cancel]
    rw [hb]
  have hifn : ∀ d : List (String × Macro),
      includeFileName d ⟨incTok :: (ws ++ fnameTok :: rest), 1 + ws.length⟩
      = (some fnameTok.value, ⟨incTok :: (ws ++ fnameTok :: rest), ws.length + 2⟩) := by
    intro d
    have hit := includeFileName_string d (incTok :: ws) fnameTok rest hfk
    simp only [List.cons_append, List.length_cons] at hit
    rw [show 1 + ws.length = ws.length + 1 from by omega]
    rw [hit]
  have hstep : ∀ d incl,
      preprocess env (fuel + 1) ⟨incTok :: (ws ++ fnameTok :: rest), 0⟩
        d include_paths incl
      = match resolveInclude env include_paths fnameTok.value with
        | none => preprocess env fuel
            ⟨incTok :: (ws ++ fnameTok :: rest), ws.length + 2⟩ d include_paths incl
        | some full_name =>
          match preprocess env fuel ⟨env.vtokenize (env.read_file full_name), 0⟩
              d include_paths (incl ++ [full_name]) with
          | .error err => .error err
          | .ok (inc, d2, i2) =>
            match preprocess env fuel
                ⟨incTok :: (ws ++ fnameTok :: rest), ws.length + 2⟩
                d2 include_paths i2 with
            | .error err => .error err
            | .ok (r, d3, i3) => .ok (inc ++ r, d3, i3) := by
    intro d incl
    simp only [preprocess, hpop, hik, hiv]
    simp
    rw [hsw, hifn d]
  constructor
  · intro k hk hbef hhit inc d2 i2 r d3 i3 hinc hrest
    rw [hstep defines included_files,
      resolveInclude_found env include_paths fnameTok.value k hk hbef hhit]
    simp only [hinc, hrest]
  · intro hall
    rw [hstep defines included_files,
      resolveInclude_none env include_paths fnameTok.value hall]

theorem C4_witness :
    preprocess
      ⟨fun p => p == "dir2/x.svh", fun _ => "hello",
        fun a b => a ++ "/" ++ b, fun _ => [⟨Kind.IDENTIFIER, "hello", none⟩]⟩
      2
      ⟨[⟨Kind.PREPROCESSOR, "include", none⟩, ⟨Kind.WHITESPACE, " ", none⟩,
        ⟨Kind.STRING, "x.svh", none⟩], 0⟩
      [] ["dir1", "dir2"] []
      = .ok ([⟨Kind.IDENTIFIER, "hello", none⟩], [], ["dir2/x.svh"]) := by
  have h := (C4_theorem
    ⟨fun p => p == "dir2/x.svh", fun _ => "hello",
      fun a b => a ++ "/" ++ b, fun _ => [⟨Kind.IDENTIFIER, "hello", none⟩]⟩
    1 ⟨Kind.PREPROCESSOR, "include", none⟩ ⟨Kind.STRING, "x.svh", none⟩
    [⟨Kind.WHITESPACE, " ", none⟩] [] [] ["dir1", "dir2"] []
    rfl rfl (by decide) rfl).1
    1 (by decide)
    (fun j hj => by
      have hj0 : j = 0 := by omega
      subst hj0
      rfl)
    rfl
    [⟨Kind.IDENTIFIER, "hello", none⟩] [] ["dir2/x.svh"] [] [] ["dir2/x.svh"]
    rfl rfl
  exact h.trans rfl

/- ## C8: `describe_location` -/

/-- Python `str.splitlines` for `\n`-separated text: split on newlines,
with no trailing empty line for text ending in a newline.  Fuel-based;
each round consumes at least one character, so `length + 1` suffices. -/
def splitlinesAux : Nat → List Char → List (List Char)
  | 0, _ => []
  | _, [] => []
  | fuel + 1, c :: cs =>
    let line := (c :: cs).takeWhile (fun ch => ch != '\n')
    match (c :: cs).dropWhile (fun ch => ch != '\n') with
    | [] => [line]
    | _ :: rest => line :: splitlinesAux fuel rest

/-- `contents.splitlines()`. -/
def splitlines (s : String) : List String :=
  (splitlinesAux (s.data.length + 1) s.data).map (fun l => String.mk l)

/-- The injected file capabilities of `vunit.ostools` used by
`describe_location`: `file_exists` and `read_file`. -/
structure FileEnv where
  file_exists : String → Bool
  read_file : String → String

/-- The `for lineno, line in enumerate(contents.splitlines())` loop of
`describe_location`, carrying `count` (the running line-start offset)
and `lineno`.  The underline repetition count is computed in `Int`
because Python's `"~" * n` yields the empty string for `n <= 0`
(`Int.toNat` clamps at zero the same way).  Falling off the loop end
returns Python's implicit `None`. -/
def describeLoop (file_name : String) (start stop : Nat) :
    Nat → Nat → List String → Option String
  | _, _, [] => none
  | count, lineno, line :: rest =>
    if count ≤ start ∧ start ≤ count + line.length then
      some ("from " ++ file_name ++ " line " ++ toString (lineno + 1) ++ ":\n"
        ++ line ++ "\n"
        ++ String.mk (List.replicate (start - count) ' ')
        ++ String.mk (List.replicate
            ((min ((count + line.length : Int) - 1) (stop : Int)
              - (start : Int) + 1).toNat) '~'))
    else describeLoop file_name start stop (count + line.length + 1) (lineno + 1) rest

/-- `describe_location(location)`: `None` location, unavailable file, or
the three-line rendering produced by the scan loop. -/
def describe_location (env : FileEnv) (location : Option (String × (Nat × Nat))) :
    Option String :=
  match location with
  | none => some "Unknown location"
  | some (file_name, (start, stop)) =>
    if env.file_exists file_name = false then
      some ("Unknown location in " ++ file_name)
    else
      describeLoop file_name start stop 0 0 (splitlines (env.read_file file_name))

/-- The offset at which the `k`-th line starts: every earlier line
contributes its length plus one for the terminator. -/
def lineStart (lines : List String) (k : Nat) : Nat :=
  ((lines.take k).map (fun l => l.length + 1)).sum

theorem describeLoop_at (fn : String) (start stop : Nat) :
    ∀ (lines : List String) (k count lineno S N : Nat),
      k < lines.length →
      S = count + lineStart lines k →
      N = lineno + k + 1 →
      S ≤ start →
      start ≤ S + (lines.getD k "").length →
      describeLoop fn start stop count lineno lines
        = some ("from " ++ fn ++ " line " ++ toString N ++ ":\n"
          ++ lines.getD k "" ++ "\n"
          ++ String.mk (List.replicate (start - S) ' ')
          ++ String.mk (List.replicate
              ((min ((S + (lines.getD k "").length : Int) - 1)
                (stop : Int) - (start : Int) + 1).toNat) '~')) := by
  intro lines
  induction lines with
  | nil => intro k count lineno S N hk; simp at hk
  | cons l rest ih =>
    intro k count lineno S N hk hS hN hlo hhi
    have hls0 : lineStart (l :: rest) 0 = 0 := rfl
    cases k with
    | zero =>
      rw [hls0, Nat.add_zero] at hS
      subst hS
      subst hN
      simp only [List.getD_cons_zero] at hhi ⊢
      simp only [describeLoop]
      rw [if_pos ⟨hlo, hhi⟩]
    | succ k' =>
      have hls : lineStart (l :: rest) (k' + 1)
          = l.length + 1 + lineStart rest k' := by
        unfold lineStart
        rw [List.take_succ_cons, List.map_cons, List.sum_cons]
      simp only [List.getD_cons_succ] at hhi ⊢
      simp only [describeLoop]
      rw [if_neg (by rintro ⟨h1, h2⟩; omega)]
      exact ih k' (count + l.length + 1) (lineno + 1) S N
        (by simp only [List.length_cons] at hk; omega)
        (by omega) (by omega) hlo hhi

/-- C8 is refuted by the code: Python's `"~" * n` is empty for `n <= 0`,
so the underline length is the claimed quantity clamped at zero, not at
one.  For the single-line source `a\n` and the span `(1, 1)` — whose
start offset 1 lies within line `a` (`0 <= 1 <= 1`) — the code emits a
third line of one space and zero `~`, while the claim's
`max(1, min(0, 1) - 1 + 1) = 1` demands one `~`. -/
theorem C8_counterexample :
    describe_location ⟨fun _ => true, fun _ => "a\n"⟩ (some ("fn", (1, 1)))
      = some "from fn line 1:\na\n " ∧
    ("from fn line 1:\na\n " : String) ≠ "from fn line 1:\na\n ~" :=
  ⟨rfl, by decide⟩

/-- C8 (amended): for a readable source whose `k`-th line (0-based)
contains the start offset, `describe_location` returns the header naming
the source and line `k + 1`, the literal line, and an underline of `~`
starting at column `start_offset - line_start` whose length is
`min(line_end - 1, end_offset) - start_offset + 1` clamped below at zero
(not at one). -/
theorem C8_amended (env : FileEnv) (fn : String) (start stop k : Nat)
    (hex : env.file_exists fn = true)
    (hk : k < (splitlines (env.read_file fn)).length)
    (hlo : lineStart (splitlines (env.read_file fn)) k ≤ start)
    (hhi : start ≤ lineStart (splitlines (env.read_file fn)) k
      + ((splitlines (env.read_file fn)).getD k "").length) :
    describe_location env (some (fn, (start, stop)))
      = some ("from " ++ fn ++ " line " ++ toString (k + 1) ++ ":\n"
        ++ (splitlines (env.read_file fn)).getD k "" ++ "\n"
        ++ String.mk (List.replicate
            (start - lineStart (splitlines (env.read_file fn)) k) ' ')
        ++ String.mk (List.replicate
            ((min ((lineStart (splitlines (env.read_file fn)) k
              + ((splitlines (env.read_file fn)).getD k "").length : Int) - 1)
              (stop : Int) - (start : Int) + 1).toNat) '~')) := by
  simp only [describe_location, hex, Bool.true_eq_false, if_false]
  exact describeLoop_at fn start stop (splitlines (env.read_file fn)) k 0 0
    (lineStart (splitlines (env.read_file fn)) k) (k + 1) hk (by omega) (by omega)
    hlo hhi

/-- The claim's own example, valid also after the amendment: a
one-character span at the first column of the single-line source `S\n`
yields the header for line 1, the line, and one `~` at column 0. -/
theorem C8_witness :
    describe_location ⟨fun _ => true, fun _ => "S\n"⟩ (some ("fn", (0, 0)))
      = some "from fn line 1:\nS\n~" := by
  have h := C8_amended ⟨fun _ => true, fun _ => "S\n"⟩ "fn" 0 0 0 rfl (by decide)
    (by decide) (by decide)
  exact h.trans (by rfl)
